import Mathlib

/-!
Shallow embedding of the Node2Vec + Isolation Forest anomaly detector of
`src/argus/detection/ml_detection.py` (class `Node2VecDetector`), together
with the value types it consumes and produces.

External collaborators are abstracted as follows:
* the gensim/node2vec embedding pipeline (`Node2Vec(...)` followed by
  `.fit(...)` and per-node `wv[str(node)]` lookups) is an oracle
  `String → Option Emb`: `none` models the per-node `KeyError` the source
  catches at `ml_detection.py:120` and `ml_detection.py:201`;
* the possibility that any step inside a `try:` block raises is modelled by
  wrapping the oracle in `Except Unit`;
* the fitted sklearn `IsolationForest` is a `Forest`: its
  `decision_function` and `predict`, applied row-wise to the stacked
  embedding array, become the fields `decision` and `predict` applied to
  each embedding vector;
* `time.time()` readings are explicit rational parameters, so
  `detection_time = time.time() - start_time` becomes `tEnd - tStart`;
* floating point scores are embedded as rationals.
-/

/-- An embedding vector (a row of the numpy embedding array). -/
def Emb : Type := List ℚ

instance : DecidableEq Emb := inferInstanceAs (DecidableEq (List ℚ))

/-- Modelled from the spec: the `UAV` class (`argus/core/uav.py` is not under
`src/`). The detector reads only the boolean ground-truth label
`is_legitimate` from the back-referenced UAV (`ml_detection.py:244`). -/
structure UAV where
  is_legitimate : Bool
deriving DecidableEq

/-- The attribute dictionary of a graph node: `graph.nodes[node]` may or may
not contain a `"uav"` back-reference (`ml_detection.py:242`). -/
structure NodeData where
  uav : Option UAV
deriving DecidableEq

/-- A networkx graph as the detector consumes it: an iteration order of node
identities (`graph.nodes()`), the per-node attribute dictionaries
(`graph.nodes[node]`), and the edge list.  The detector reads only the nodes
and their attributes; edges influence the result solely through the external
embedding oracle. -/
structure Graph where
  nodes : List String
  data : String → NodeData
  edges : List (String × String)

/-- The empty graph, used only as the (unreachable) default for `getLastD`. -/
def Graph.empty : Graph :=
  { nodes := [], data := fun _ => { uav := none }, edges := [] }

/-- A fitted sklearn `IsolationForest`, abstracted by the two functions the
detector calls on it: `decision_function` (raw anomaly score, lower = more
anomalous) and `predict` (`-1` flags an outlier), both applied per embedding
row (`ml_detection.py:218-219`). -/
structure Forest where
  decision : Emb → ℚ
  predict : Emb → Int

/-- Modelled from the spec: the `DetectionResult` value type
(`argus/evaluation` is not under `src/`); fields exactly as constructed at
the `DetectionResult(...)` call sites in `ml_detection.py`.  Python dicts
become association lists in insertion order, the set of flagged ids becomes
a list. -/
structure DetectionResult where
  detector_name : String
  timestamp : ℚ
  anomalous_uav_ids : List String
  confidence_scores : List (String × ℚ)
  ground_truth : List (String × Bool)
  detection_time : ℚ

/-- The mutable state of a `Node2VecDetector` instance: the detector name
(from `AnomalyDetector.__init__`), the six hyperparameters fixed at
construction (`ml_detection.py:56-61`), and the fields assigned in
`__init__` and updated by `train` (`ml_detection.py:63-66`, 80, 118, 129-135).
`node2vec_model` is write-only in the source and never consulted by `detect`,
so it is not carried. -/
structure DetectorState where
  name : String
  embedding_dim : Nat
  walk_length : Nat
  num_walks : Nat
  p : ℚ
  q : ℚ
  contamination : ℚ
  isolation_forest : Option Forest
  baseline_embeddings : List (String × Emb)
  baseline_graphs : List Graph

/-- The embedding oracle outcome for one `Node2Vec(...)` + `fit` run:
`Except.error ()` models an exception raised inside the enclosing `try:`
block; `Except.ok embOf` yields the per-node lookup, where `embOf n = none`
models the caught per-node `KeyError`. -/
def DetectEnv : Type := Except Unit (String → Option Emb)

/-- The environment for one `train` call: an exception anywhere in the
`try:` block (`ml_detection.py:97-139`), or the embedding lookup together
with the `IsolationForest(...).fit` operation, which turns the list of
embedding rows into a fitted forest. -/
def TrainEnv : Type := Except Unit ((String → Option Emb) × (List Emb → Forest))

/-- Python dict assignment `d[k] = v`: replace the value at an existing key,
else append at the end. -/
def dictInsert (d : List (String × Emb)) (k : String) (v : Emb) :
    List (String × Emb) :=
  if d.any (fun kv => kv.1 = k) then
    d.map (fun kv => if kv.1 = k then (k, v) else kv)
  else d ++ [(k, v)]

/-- The loop at `ml_detection.py:196-202` (and `115-121`): iterate
`graph.nodes()`, keep nodes whose `wv[str(node)]` lookup succeeds, paired
with their embeddings, preserving iteration order. -/
def embedPairs (embOf : String → Option Emb) (g : Graph) :
    List (String × Emb) :=
  g.nodes.filterMap (fun n => (embOf n).map (fun e => (n, e)))

/-- Minimum of a nonempty score list: `anomaly_scores.min()` at
`ml_detection.py:222`.  The `[]` case is never reached (the caller guards
on a nonempty embedding list). -/
def minList : List ℚ → ℚ
  | [] => 0
  | x :: xs => xs.foldl min x

/-- Maximum of a nonempty score list: `anomaly_scores.max()` at
`ml_detection.py:223`. -/
def maxList : List ℚ → ℚ
  | [] => 0
  | x :: xs => xs.foldl max x

/-- Score normalization at `ml_detection.py:226-231`: with
`score_range = maxS - minS`, a raw score `s` becomes
`1 - (s - minS) / score_range` when the range is positive, else the neutral
`0.5`. -/
def normalizeScore (minS maxS s : ℚ) : ℚ :=
  if maxS - minS > 0 then 1 - (s - minS) / (maxS - minS) else 1 / 2

/-- The ground-truth loop at `ml_detection.py:240-246`: the back-referenced
UAV's `is_legitimate`, defaulting to `true` when the `"uav"` attribute is
absent. -/
def gtLabel (g : Graph) (n : String) : Bool :=
  match (g.data n).uav with
  | some u => u.is_legitimate
  | none => true

/-- The ground-truth mapping built by `detect` over all of `graph.nodes()`. -/
def groundTruthOf (g : Graph) : List (String × Bool) :=
  g.nodes.map (fun n => (n, gtLabel g n))

/-- The empty `DetectionResult` constructed at `ml_detection.py:168-175`,
`207-214` and `266-273`. -/
def emptyResult (name : String) (tStamp dt : ℚ) : DetectionResult :=
  { detector_name := name
    timestamp := tStamp
    anomalous_uav_ids := []
    confidence_scores := []
    ground_truth := []
    detection_time := dt }

/-- The raw `decision_function` values of the current batch
(`anomaly_scores` at `ml_detection.py:218`), one per embedded node, in node
iteration order. -/
def batchScores (f : Forest) (embOf : String → Option Emb) (g : Graph) :
    List ℚ :=
  (embedPairs embOf g).map (fun pe => f.decision pe.2)

/-- The `DetectionResult` built on the successful path of `detect`
(`ml_detection.py:216-261`): normalization of the raw scores across the
batch, flagging of nodes the forest predicts as `-1`, and the ground-truth
loop. -/
def successResult (st : DetectorState) (f : Forest)
    (embOf : String → Option Emb) (g : Graph) (tStart tEnd : ℚ) :
    DetectionResult :=
  let minS := minList (batchScores f embOf g)
  let maxS := maxList (batchScores f embOf g)
  { detector_name := st.name
    timestamp := tEnd
    anomalous_uav_ids :=
      ((embedPairs embOf g).filter (fun pe => f.predict pe.2 = -1)).map Prod.fst
    confidence_scores :=
      (embedPairs embOf g).map
        (fun pe => (pe.1, normalizeScore minS maxS (f.decision pe.2)))
    ground_truth := groundTruthOf g
    detection_time := tEnd - tStart }

/-- The `DetectionResult` computed by `Node2VecDetector.detect`
(`ml_detection.py:145-273`), with the wall-clock reads `time.time()` at
entry and at result construction passed in as `tStart` and `tEnd`. -/
def detectResult (st : DetectorState) (env : DetectEnv) (g : Graph)
    (tStart tEnd : ℚ) : DetectionResult :=
  if g.nodes.isEmpty then emptyResult st.name tEnd (tEnd - tStart) else
  match st.isolation_forest with
  | none => emptyResult st.name tEnd (tEnd - tStart)
  | some forest =>
    match env with
    | Except.error _ => emptyResult st.name tEnd (tEnd - tStart)
    | Except.ok embOf =>
      if (embedPairs embOf g).isEmpty then
        emptyResult st.name tEnd (tEnd - tStart)
      else
        successResult st forest embOf g tStart tEnd

/-- `Node2VecDetector.detect`, with the graph threaded through the call as
explicit state: the second component is the graph object as the call leaves
it.  The source only reads `graph.nodes()` and `graph.nodes[node]`, so the
graph is returned as received. -/
def detect (st : DetectorState) (env : DetectEnv) (g : Graph)
    (tStart tEnd : ℚ) : DetectionResult × Graph :=
  (detectResult st env g tStart tEnd, g)

/-- The representative training graph: `clean_graphs[-1]` at
`ml_detection.py:87` (the `.copy()` yields an equal graph). -/
def trainingGraphOf (cgs : List Graph) : Graph :=
  cgs.getLastD Graph.empty

/-- `Node2VecDetector.train` (`ml_detection.py:68-143`).  `baseline_graphs`
is assigned unconditionally; the early returns on an empty sequence, an
empty training graph, or an empty embedding list leave the remaining state
untouched; an exception sets `isolation_forest = None`; on success the
forest fitted on the stacked embedding rows is stored and the baseline
embedding dict updated per node. -/
def train (st : DetectorState) (cleanGraphs : List Graph) (env : TrainEnv) :
    DetectorState :=
  let st := { st with baseline_graphs := cleanGraphs }
  if cleanGraphs.isEmpty then st else
  let trainingGraph := trainingGraphOf cleanGraphs
  if trainingGraph.nodes.isEmpty then st else
  match env with
  | Except.error _ => { st with isolation_forest := none }
  | Except.ok (embOf, fit) =>
    let pairs := embedPairs embOf trainingGraph
    if pairs.isEmpty then
      st
    else
      { st with
        baseline_embeddings :=
          pairs.foldl (fun d pe => dictInsert d pe.1 pe.2) st.baseline_embeddings
        isolation_forest := some (fit (pairs.map Prod.snd)) }

/-!
Call-site argument records for the two stochastic external components.
The `node2vec.Node2Vec` constructor has a `seed` keyword parameter
defaulting to `None`, under which walk generation draws from the ambient
global random state; sklearn's `IsolationForest` has a `random_state`
keyword defaulting to `None`.  The records below capture exactly which of
these the source passes at each call site.
-/

/-- The keyword arguments the detector passes to `node2vec.Node2Vec`.
`seed` defaults to `none`, matching the library default `seed=None`, and is
only different from `none` if the call site passes it explicitly. -/
structure Node2VecArgs where
  dimensions : Nat
  walk_length : Nat
  num_walks : Nat
  p : ℚ
  q : ℚ
  workers : Nat
  quiet : Bool
  seed : Option Nat := none

/-- The `Node2Vec(...)` call in `train` (`ml_detection.py:99-108`): no
`seed` argument is passed. -/
def trainNode2VecArgs (st : DetectorState) : Node2VecArgs :=
  { dimensions := st.embedding_dim
    walk_length := st.walk_length
    num_walks := st.num_walks
    p := st.p
    q := st.q
    workers := 1
    quiet := true }

/-- The `Node2Vec(...)` call in `detect` (`ml_detection.py:179-188`): no
`seed` argument is passed. -/
def detectNode2VecArgs (st : DetectorState) : Node2VecArgs :=
  { dimensions := st.embedding_dim
    walk_length := st.walk_length
    num_walks := st.num_walks
    p := st.p
    q := st.q
    workers := 1
    quiet := true }

/-- The keyword arguments the detector passes to sklearn's
`IsolationForest`. -/
structure IsolationForestArgs where
  n_estimators : Nat
  contamination : ℚ
  random_state : Option Nat := none
  n_jobs : Nat

/-- The `IsolationForest(...)` call in `train` (`ml_detection.py:129-134`):
`random_state=42` is passed explicitly. -/
def trainIsolationForestArgs (st : DetectorState) : IsolationForestArgs :=
  { n_estimators := 100
    contamination := st.contamination
    random_state := some 42
    n_jobs := 1 }

/-!
Concrete objects used by counterexamples and witnesses.
-/

/-- A forest whose decision function reads the first coordinate of the
embedding and which predicts `-1` (outlier) on negative first coordinate. -/
def wForest : Forest :=
  { decision := fun e => e.headD 0
    predict := fun e => if e.headD 0 < 0 then -1 else 1 }

/-- A detector state holding the source's default hyperparameters
(`ml_detection.py:33-42`), untrained. -/
def untrainedState : DetectorState :=
  { name := "node2vec"
    embedding_dim := 128
    walk_length := 30
    num_walks := 200
    p := 1
    q := 1
    contamination := 1 / 10
    isolation_forest := none
    baseline_embeddings := []
    baseline_graphs := [] }

/-- The same detector state after a successful training that fitted
`wForest`. -/
def trainedState : DetectorState :=
  { untrainedState with isolation_forest := some wForest }

/-- A three-node graph: `u1` and `u2` carry no `"uav"` back-reference, `u3`
back-references an illegitimate UAV. -/
def wGraph : Graph :=
  { nodes := ["u1", "u2", "u3"]
    data := fun n =>
      if n = "u3" then { uav := some { is_legitimate := false } }
      else { uav := none }
    edges := [("u1", "u2")] }

/-- An embedding oracle that embeds `u1` and `u2` and fails (per-node
`KeyError`) on every other node. -/
def wEmbOf : String → Option Emb :=
  fun n =>
    if n = "u1" then some [(-2 : ℚ)]
    else if n = "u2" then some [(4 : ℚ)] else none

/-- An embedding oracle giving every node the same embedding, so that all
raw scores of the batch coincide. -/
def wEmbOfConst : String → Option Emb := fun _ => some [(3 : ℚ)]

/-!
Helper lemmas: extrema of score batches, normalization bounds, association
list lookups, and the branch structure of `detectResult`.
-/

theorem foldl_min_le_init (xs : List ℚ) : ∀ acc : ℚ, xs.foldl min acc ≤ acc := by
  induction xs with
  | nil => intro acc; exact le_refl acc
  | cons x xs ih => intro acc; exact le_trans (ih (min acc x)) (min_le_left _ _)

theorem foldl_min_le_mem (xs : List ℚ) :
    ∀ acc a : ℚ, a ∈ xs → xs.foldl min acc ≤ a := by
  induction xs with
  | nil => intro acc a ha; cases ha
  | cons x xs ih =>
    intro acc a ha
    rcases List.mem_cons.mp ha with h | h
    · subst h; exact le_trans (foldl_min_le_init xs (min acc a)) (min_le_right _ _)
    · exact ih _ a h

theorem minList_le_mem (xs : List ℚ) (a : ℚ) (h : a ∈ xs) : minList xs ≤ a := by
  cases xs with
  | nil => cases h
  | cons x xs =>
    simp only [minList]
    rcases List.mem_cons.mp h with h1 | h1
    · subst h1; exact foldl_min_le_init xs a
    · exact foldl_min_le_mem xs x a h1

theorem init_le_foldl_max (xs : List ℚ) : ∀ acc : ℚ, acc ≤ xs.foldl max acc := by
  induction xs with
  | nil => intro acc; exact le_refl acc
  | cons x xs ih => intro acc; exact le_trans (le_max_left _ _) (ih (max acc x))

theorem mem_le_foldl_max (xs : List ℚ) :
    ∀ acc a : ℚ, a ∈ xs → a ≤ xs.foldl max acc := by
  induction xs with
  | nil => intro acc a ha; cases ha
  | cons x xs ih =>
    intro acc a ha
    rcases List.mem_cons.mp ha with h | h
    · subst h; exact le_trans (le_max_right _ _) (init_le_foldl_max xs (max acc a))
    · exact ih _ a h

theorem mem_le_maxList (xs : List ℚ) (a : ℚ) (h : a ∈ xs) : a ≤ maxList xs := by
  cases xs with
  | nil => cases h
  | cons x xs =>
    simp only [maxList]
    rcases List.mem_cons.mp h with h1 | h1
    · subst h1; exact init_le_foldl_max xs a
    · exact mem_le_foldl_max xs x a h1

theorem foldl_min_mem (xs : List ℚ) :
    ∀ acc : ℚ, xs.foldl min acc = acc ∨ xs.foldl min acc ∈ xs := by
  induction xs with
  | nil => intro acc; exact Or.inl rfl
  | cons x xs ih =>
    intro acc
    rcases ih (min acc x) with h | h
    · rcases min_choice acc x with hm | hm
      · exact Or.inl (by rw [List.foldl_cons, h, hm])
      · refine Or.inr ?_
        rw [List.foldl_cons, h, hm]
        exact List.mem_cons_self x xs
    · exact Or.inr (List.mem_cons_of_mem x h)

theorem minList_mem (xs : List ℚ) (h : xs ≠ []) : minList xs ∈ xs := by
  cases xs with
  | nil => exact absurd rfl h
  | cons x xs =>
    simp only [minList]
    rcases foldl_min_mem xs x with h1 | h1
    · rw [h1]; exact List.mem_cons_self x xs
    · exact List.mem_cons_of_mem x h1

theorem foldl_max_mem (xs : List ℚ) :
    ∀ acc : ℚ, xs.foldl max acc = acc ∨ xs.foldl max acc ∈ xs := by
  induction xs with
  | nil => intro acc; exact Or.inl rfl
  | cons x xs ih =>
    intro acc
    rcases ih (max acc x) with h | h
    · rcases max_choice acc x with hm | hm
      · exact Or.inl (by rw [List.foldl_cons, h, hm])
      · refine Or.inr ?_
        rw [List.foldl_cons, h, hm]
        exact List.mem_cons_self x xs
    · exact Or.inr (List.mem_cons_of_mem x h)

theorem maxList_mem (xs : List ℚ) (h : xs ≠ []) : maxList xs ∈ xs := by
  cases xs with
  | nil => exact absurd rfl h
  | cons x xs =>
    simp only [maxList]
    rcases foldl_max_mem xs x with h1 | h1
    · rw [h1]; exact List.mem_cons_self x xs
    · exact List.mem_cons_of_mem x h1

theorem normalizeScore_bounds (minS maxS s : ℚ) (h1 : minS ≤ s) (h2 : s ≤ maxS) :
    0 ≤ normalizeScore minS maxS s ∧ normalizeScore minS maxS s ≤ 1 := by
  unfold normalizeScore
  by_cases hr : maxS - minS > 0
  · rw [if_pos hr]
    have hq0 : 0 ≤ (s - minS) / (maxS - minS) :=
      div_nonneg (by linarith) (le_of_lt hr)
    have hq1 : (s - minS) / (maxS - minS) ≤ 1 := (div_le_one hr).mpr (by linarith)
    constructor <;> linarith
  · rw [if_neg hr]; norm_num

theorem normalizeScore_anti (minS maxS s t : ℚ) (hst : s ≤ t) :
    normalizeScore minS maxS t ≤ normalizeScore minS maxS s := by
  unfold normalizeScore
  by_cases hr : maxS - minS > 0
  · rw [if_pos hr, if_pos hr]
    have h := (div_le_div_iff_of_pos_right hr).mpr (sub_le_sub_right hst minS)
    linarith
  · simp only [if_neg hr]
    exact le_refl _

theorem normalizeScore_degenerate (minS maxS s : ℚ) (h : ¬ maxS - minS > 0) :
    normalizeScore minS maxS s = 1 / 2 := by
  unfold normalizeScore
  rw [if_neg h]

theorem lookup_map_pair {β : Type} (f : String → β) (l : List String) (n : String)
    (h : n ∈ l) : ((l.map (fun x => (x, f x))).lookup n) = some (f n) := by
  induction l with
  | nil => cases h
  | cons x xs ih =>
    by_cases hx : n = x
    · subst hx; simp [List.lookup]
    · rcases List.mem_cons.mp h with h1 | h1
      · exact absurd h1 hx
      · simp only [List.map_cons, List.lookup, beq_eq_false_iff_ne.mpr hx]
        exact ih h1

theorem lookup_isSome_of_mem_keys {β : Type} (l : List (String × β)) (n : String)
    (h : n ∈ l.map Prod.fst) : (l.lookup n).isSome := by
  induction l with
  | nil => cases h
  | cons kv l ih =>
    by_cases hx : n = kv.1
    · subst hx
      simp [List.lookup]
    · simp only [List.map_cons] at h
      rcases List.mem_cons.mp h with h1 | h1
      · exact absurd h1 hx
      · simp only [List.lookup, beq_eq_false_iff_ne.mpr hx]
        exact ih h1

theorem embedPairs_mem {embOf : String → Option Emb} {g : Graph}
    {pe : String × Emb} (h : pe ∈ embedPairs embOf g) :
    pe.1 ∈ g.nodes ∧ embOf pe.1 = some pe.2 := by
  rcases List.mem_filterMap.mp h with ⟨a, ha, hmap⟩
  rcases Option.map_eq_some'.mp hmap with ⟨e, he, hpe⟩
  subst hpe
  exact ⟨ha, he⟩

theorem mem_embedPairs {embOf : String → Option Emb} {g : Graph} {n : String}
    {e : Emb} (hn : n ∈ g.nodes) (he : embOf n = some e) :
    (n, e) ∈ embedPairs embOf g :=
  List.mem_filterMap.mpr ⟨n, hn, by rw [he]; rfl⟩

theorem embedPairs_ne_nil_nodes {embOf : String → Option Emb} {g : Graph}
    (h : embedPairs embOf g ≠ []) : g.nodes ≠ [] := by
  intro hn
  exact h (by simp [embedPairs, hn])

theorem detectResult_degenerate (st : DetectorState) (env : DetectEnv)
    (g : Graph) (t0 t1 : ℚ) (h : g.nodes = [] ∨ st.isolation_forest = none) :
    detectResult st env g t0 t1 = emptyResult st.name t1 (t1 - t0) := by
  rcases h with h | h
  · simp [detectResult, h]
  · unfold detectResult
    by_cases hg : g.nodes.isEmpty = true
    · rw [if_pos hg]
    · rw [if_neg hg, h]

theorem detectResult_error (st : DetectorState) (g : Graph) (t0 t1 : ℚ) :
    detectResult st (Except.error ()) g t0 t1 =
      emptyResult st.name t1 (t1 - t0) := by
  unfold detectResult
  by_cases hg : g.nodes.isEmpty = true
  · rw [if_pos hg]
  · rw [if_neg hg]
    cases st.isolation_forest with
    | none => rfl
    | some f => rfl

theorem detectResult_no_embeddings (st : DetectorState) (f : Forest)
    (embOf : String → Option Emb) (g : Graph) (t0 t1 : ℚ)
    (hf : st.isolation_forest = some f) (hp : embedPairs embOf g = []) :
    detectResult st (Except.ok embOf) g t0 t1 =
      emptyResult st.name t1 (t1 - t0) := by
  unfold detectResult
  by_cases hg : g.nodes.isEmpty = true
  · rw [if_pos hg]
  · rw [if_neg hg, hf]
    show (if (embedPairs embOf g).isEmpty then _ else _) = _
    rw [if_pos (by simp [hp])]

theorem detectResult_success_eq (st : DetectorState) (f : Forest)
    (embOf : String → Option Emb) (g : Graph) (t0 t1 : ℚ)
    (hf : st.isolation_forest = some f) (hne : embedPairs embOf g ≠ []) :
    detectResult st (Except.ok embOf) g t0 t1 =
      successResult st f embOf g t0 t1 := by
  have hg : g.nodes ≠ [] := embedPairs_ne_nil_nodes hne
  unfold detectResult
  rw [if_neg (by simp [List.isEmpty_iff, hg]), hf]
  show (if (embedPairs embOf g).isEmpty then _ else _) = _
  rw [if_neg (by simp [List.isEmpty_iff, hne])]

theorem detectResult_cases (st : DetectorState) (env : DetectEnv) (g : Graph)
    (t0 t1 : ℚ) :
    detectResult st env g t0 t1 = emptyResult st.name t1 (t1 - t0) ∨
    ∃ f embOf, st.isolation_forest = some f ∧ env = Except.ok embOf ∧
      embedPairs embOf g ≠ [] ∧
      detectResult st env g t0 t1 = successResult st f embOf g t0 t1 := by
  by_cases hg : g.nodes = []
  · exact Or.inl (detectResult_degenerate st env g t0 t1 (Or.inl hg))
  · cases hf : st.isolation_forest with
    | none => exact Or.inl (detectResult_degenerate st env g t0 t1 (Or.inr hf))
    | some f =>
      cases env with
      | error e =>
        cases e
        exact Or.inl (detectResult_error st g t0 t1)
      | ok embOf =>
        by_cases hp : embedPairs embOf g = []
        · exact Or.inl (detectResult_no_embeddings st f embOf g t0 t1 hf hp)
        · exact Or.inr ⟨f, embOf, rfl, rfl, hp,
            detectResult_success_eq st f embOf g t0 t1 hf hp⟩


theorem detect_fst (st : DetectorState) (env : DetectEnv) (g : Graph)
    (t0 t1 : ℚ) : (detect st env g t0 t1).1 = detectResult st env g t0 t1 :=
  rfl

/-- Claim C2: a `detect` call on a graph with zero nodes, or on an untrained
detector (no isolation forest fitted), returns a `DetectionResult` with
empty flagged set, empty confidence-score map, empty ground-truth map, and
non-negative detection time (the wall clock not running backwards between
the entry and exit reads); the embedded `detect` is a total function, so no
exception is raised. -/
theorem detect_degenerate_returns_empty (st : DetectorState) (env : DetectEnv)
    (g : Graph) (t0 t1 : ℚ)
    (hdeg : g.nodes = [] ∨ st.isolation_forest = none) (hclock : t0 ≤ t1) :
    (detect st env g t0 t1).1.anomalous_uav_ids = [] ∧
    (detect st env g t0 t1).1.confidence_scores = [] ∧
    (detect st env g t0 t1).1.ground_truth = [] ∧
    0 ≤ (detect st env g t0 t1).1.detection_time := by
  have h : detectResult st env g t0 t1 = emptyResult st.name t1 (t1 - t0) :=
    detectResult_degenerate st env g t0 t1 hdeg
  refine ⟨?_, ?_, ?_, ?_⟩
  · rw [detect_fst, h]; rfl
  · rw [detect_fst, h]; rfl
  · rw [detect_fst, h]; rfl
  · rw [detect_fst, h]
    show 0 ≤ t1 - t0
    linarith

/-- Witness for C2: the concrete untrained detector on the concrete
three-node graph with clock reads 0 and 1. -/
theorem detect_degenerate_returns_empty_witness :
    (wGraph.nodes = [] ∨ untrainedState.isolation_forest = none) ∧
    (0 : ℚ) ≤ 1 ∧
    ((detect untrainedState (Except.error ()) wGraph 0 1).1.anomalous_uav_ids = [] ∧
     (detect untrainedState (Except.error ()) wGraph 0 1).1.confidence_scores = [] ∧
     (detect untrainedState (Except.error ()) wGraph 0 1).1.ground_truth = [] ∧
     0 ≤ (detect untrainedState (Except.error ()) wGraph 0 1).1.detection_time) :=
  ⟨Or.inr rfl, by decide,
    detect_degenerate_returns_empty untrainedState (Except.error ()) wGraph 0 1
      (Or.inr rfl) (by decide)⟩

/-- Claim C4: an internal failure during embedding generation or scoring
(an exception inside the `try:` block, modelled by the error environment)
never propagates: it is converted into a `DetectionResult` with empty
flagged set and empty score maps, with the detection-time field still
populated from the clock reads. -/
theorem detect_internal_failure_recovered (st : DetectorState) (g : Graph)
    (t0 t1 : ℚ) :
    (detect st (Except.error ()) g t0 t1).1.anomalous_uav_ids = [] ∧
    (detect st (Except.error ()) g t0 t1).1.confidence_scores = [] ∧
    (detect st (Except.error ()) g t0 t1).1.ground_truth = [] ∧
    (detect st (Except.error ()) g t0 t1).1.detection_time = t1 - t0 := by
  have h := detectResult_error st g t0 t1
  refine ⟨?_, ?_, ?_, ?_⟩ <;> (rw [detect_fst, h]; rfl)

/-- Claim C9: `detect` treats the input graph as read-only: the graph
threaded through the call comes back with the same node list, edge list and
node-attribute map. -/
theorem detect_graph_readonly (st : DetectorState) (env : DetectEnv)
    (g : Graph) (t0 t1 : ℚ) :
    (detect st env g t0 t1).2.nodes = g.nodes ∧
    (detect st env g t0 t1).2.edges = g.edges ∧
    (detect st env g t0 t1).2.data = g.data :=
  ⟨rfl, rfl, rfl⟩

/-- Claim C10: every flagged identity carries a confidence score, and every
key of the confidence-score map is a node of the input graph. -/
theorem detect_flagged_subset_scored (st : DetectorState) (env : DetectEnv)
    (g : Graph) (t0 t1 : ℚ) :
    (∀ i ∈ (detect st env g t0 t1).1.anomalous_uav_ids,
       ∃ c, (i, c) ∈ (detect st env g t0 t1).1.confidence_scores) ∧
    (∀ pr ∈ (detect st env g t0 t1).1.confidence_scores, pr.1 ∈ g.nodes) := by
  rcases detectResult_cases st env g t0 t1 with h | ⟨f, embOf, hf, henv, hne, h⟩
  · constructor
    · intro i hi
      rw [detect_fst, h] at hi
      cases hi
    · intro pr hpr
      rw [detect_fst, h] at hpr
      cases hpr
  · constructor
    · intro i hi
      rw [detect_fst, h] at hi
      have hflag : i ∈ ((embedPairs embOf g).filter
          (fun pe => f.predict pe.2 = -1)).map Prod.fst := hi
      rcases List.mem_map.mp hflag with ⟨pe, hpef, hpe1⟩
      have hpe : pe ∈ embedPairs embOf g := List.mem_filter.mp hpef |>.1
      refine ⟨normalizeScore (minList (batchScores f embOf g))
        (maxList (batchScores f embOf g)) (f.decision pe.2), ?_⟩
      rw [detect_fst, h]
      show _ ∈ (embedPairs embOf g).map (fun pe => (pe.1,
        normalizeScore (minList (batchScores f embOf g))
          (maxList (batchScores f embOf g)) (f.decision pe.2)))
      exact List.mem_map.mpr ⟨pe, hpe, by rw [hpe1]⟩
    · intro pr hpr
      rw [detect_fst, h] at hpr
      have hconf : pr ∈ (embedPairs embOf g).map (fun pe => (pe.1,
          normalizeScore (minList (batchScores f embOf g))
            (maxList (batchScores f embOf g)) (f.decision pe.2))) := hpr
      rcases List.mem_map.mp hconf with ⟨pe, hpe, hmap⟩
      rw [← hmap]
      exact (embedPairs_mem hpe).1

/-- Claim C1: on a trained detector, with a graph whose nodes yield at
least one embedding, every confidence score in the returned mapping lies in
[0,1]; when the batch's score range is positive the mapping is exactly
node ↦ 1 - (raw - min)/(max - min) over the batch's decision-function
values, and a node carrying the lowest raw score receives the highest
confidence; when all raw scores of the batch are equal every confidence is
exactly 0.5. -/
theorem detect_confidence_normalization (st : DetectorState) (f : Forest)
    (embOf : String → Option Emb) (g : Graph) (t0 t1 : ℚ)
    (hf : st.isolation_forest = some f) (hne : embedPairs embOf g ≠ []) :
    (∀ pr ∈ (detect st (Except.ok embOf) g t0 t1).1.confidence_scores,
       0 ≤ pr.2 ∧ pr.2 ≤ 1) ∧
    (0 < maxList (batchScores f embOf g) - minList (batchScores f embOf g) →
      (detect st (Except.ok embOf) g t0 t1).1.confidence_scores =
        (embedPairs embOf g).map (fun pe => (pe.1,
          1 - (f.decision pe.2 - minList (batchScores f embOf g)) /
            (maxList (batchScores f embOf g) - minList (batchScores f embOf g))))) ∧
    (∀ pe ∈ embedPairs embOf g,
      (∀ s ∈ batchScores f embOf g, f.decision pe.2 ≤ s) →
      (pe.1, normalizeScore (minList (batchScores f embOf g))
          (maxList (batchScores f embOf g)) (f.decision pe.2)) ∈
        (detect st (Except.ok embOf) g t0 t1).1.confidence_scores ∧
      ∀ pr ∈ (detect st (Except.ok embOf) g t0 t1).1.confidence_scores,
        pr.2 ≤ normalizeScore (minList (batchScores f embOf g))
          (maxList (batchScores f embOf g)) (f.decision pe.2)) ∧
    ((∀ s1 ∈ batchScores f embOf g, ∀ s2 ∈ batchScores f embOf g, s1 = s2) →
      ∀ pr ∈ (detect st (Except.ok embOf) g t0 t1).1.confidence_scores,
        pr.2 = 1 / 2) := by
  have hres := detectResult_success_eq st f embOf g t0 t1 hf hne
  have hconf : (detect st (Except.ok embOf) g t0 t1).1.confidence_scores =
      (embedPairs embOf g).map (fun pe => (pe.1,
        normalizeScore (minList (batchScores f embOf g))
          (maxList (batchScores f embOf g)) (f.decision pe.2))) := by
    rw [detect_fst, hres]
    rfl
  refine ⟨?_, ?_, ?_, ?_⟩
  · intro pr hpr
    rw [hconf] at hpr
    rcases List.mem_map.mp hpr with ⟨pe, hpe, hmap⟩
    have hs : f.decision pe.2 ∈ batchScores f embOf g :=
      List.mem_map.mpr ⟨pe, hpe, rfl⟩
    have hb := normalizeScore_bounds _ _ _ (minList_le_mem _ _ hs)
      (mem_le_maxList _ _ hs)
    rw [← hmap]
    exact hb
  · intro hrange
    rw [hconf]
    apply List.map_congr_left
    intro pe hpe
    simp only [normalizeScore, if_pos hrange]
  · intro pe hpe hmin
    constructor
    · rw [hconf]
      exact List.mem_map.mpr ⟨pe, hpe, rfl⟩
    · intro pr hpr
      rw [hconf] at hpr
      rcases List.mem_map.mp hpr with ⟨pe2, hpe2, hmap⟩
      have hs2 : f.decision pe2.2 ∈ batchScores f embOf g :=
        List.mem_map.mpr ⟨pe2, hpe2, rfl⟩
      have hle := hmin _ hs2
      have hanti := normalizeScore_anti (minList (batchScores f embOf g))
        (maxList (batchScores f embOf g)) _ _ hle
      rw [← hmap]
      exact hanti
  · intro hall pr hpr
    rw [hconf] at hpr
    rcases List.mem_map.mp hpr with ⟨pe2, hpe2, hmap⟩
    have hbne : batchScores f embOf g ≠ [] := by
      intro hb
      exact hne (List.map_eq_nil_iff.mp hb)
    have heq : maxList (batchScores f embOf g) =
        minList (batchScores f embOf g) :=
      hall _ (maxList_mem _ hbne) _ (minList_mem _ hbne)
    have hnr : ¬ maxList (batchScores f embOf g) -
        minList (batchScores f embOf g) > 0 := by
      rw [heq]
      simp
    rw [← hmap]
    exact normalizeScore_degenerate _ _ _ hnr

/-- Witness for C1: the concrete trained detector on the concrete graph in
which `u1` and `u2` embed with raw scores -2 and 4. -/
theorem detect_confidence_normalization_witness :
    trainedState.isolation_forest = some wForest ∧
    embedPairs wEmbOf wGraph ≠ [] ∧
    ((∀ pr ∈ (detect trainedState (Except.ok wEmbOf) wGraph 0 1).1.confidence_scores,
       0 ≤ pr.2 ∧ pr.2 ≤ 1) ∧
    (0 < maxList (batchScores wForest wEmbOf wGraph) - minList (batchScores wForest wEmbOf wGraph) →
      (detect trainedState (Except.ok wEmbOf) wGraph 0 1).1.confidence_scores =
        (embedPairs wEmbOf wGraph).map (fun pe => (pe.1,
          1 - (wForest.decision pe.2 - minList (batchScores wForest wEmbOf wGraph)) /
            (maxList (batchScores wForest wEmbOf wGraph) - minList (batchScores wForest wEmbOf wGraph))))) ∧
    (∀ pe ∈ embedPairs wEmbOf wGraph,
      (∀ s ∈ batchScores wForest wEmbOf wGraph, wForest.decision pe.2 ≤ s) →
      (pe.1, normalizeScore (minList (batchScores wForest wEmbOf wGraph))
          (maxList (batchScores wForest wEmbOf wGraph)) (wForest.decision pe.2)) ∈
        (detect trainedState (Except.ok wEmbOf) wGraph 0 1).1.confidence_scores ∧
      ∀ pr ∈ (detect trainedState (Except.ok wEmbOf) wGraph 0 1).1.confidence_scores,
        pr.2 ≤ normalizeScore (minList (batchScores wForest wEmbOf wGraph))
          (maxList (batchScores wForest wEmbOf wGraph)) (wForest.decision pe.2)) ∧
    ((∀ s1 ∈ batchScores wForest wEmbOf wGraph, ∀ s2 ∈ batchScores wForest wEmbOf wGraph, s1 = s2) →
      ∀ pr ∈ (detect trainedState (Except.ok wEmbOf) wGraph 0 1).1.confidence_scores,
        pr.2 = 1 / 2)) :=
  ⟨rfl, by decide,
    detect_confidence_normalization trainedState wForest wEmbOf wGraph 0 1 rfl (by decide)⟩

/-- Claim C7: on a non-empty result, the ground-truth mapping assigns to
each node of the input graph the `is_legitimate` label of the UAV
back-referenced from the node's attributes, and `true` to any node whose
back-reference is absent (this default is the content of `gtLabel`). -/
theorem detect_ground_truth_backref (st : DetectorState) (f : Forest)
    (embOf : String → Option Emb) (g : Graph) (t0 t1 : ℚ)
    (hf : st.isolation_forest = some f) (hne : embedPairs embOf g ≠ []) :
    ∀ n ∈ g.nodes,
      ((detect st (Except.ok embOf) g t0 t1).1.ground_truth.lookup n) =
        some (gtLabel g n) := by
  intro n hn
  rw [detect_fst, detectResult_success_eq st f embOf g t0 t1 hf hne]
  show ((groundTruthOf g).lookup n) = some (gtLabel g n)
  exact lookup_map_pair (gtLabel g) g.nodes n hn

/-- Witness for C7: on the concrete graph, `u1` and `u2` (no back-reference)
and `u3` (illegitimate back-referenced UAV) all receive their labels. -/
theorem detect_ground_truth_backref_witness :
    trainedState.isolation_forest = some wForest ∧
    embedPairs wEmbOf wGraph ≠ [] ∧
    (∀ n ∈ wGraph.nodes,
      ((detect trainedState (Except.ok wEmbOf) wGraph 0 1).1.ground_truth.lookup n) =
        some (gtLabel wGraph n)) :=
  ⟨rfl, by decide,
    detect_ground_truth_backref trainedState wForest wEmbOf wGraph 0 1 rfl (by decide)⟩

/-- Claim C3 counterexample: an untrained detector evaluated on the
non-empty concrete graph returns empty mappings, so it is false that every
node of the graph appears in both mappings or that the graph was empty. -/
theorem detect_key_invariant_fails :
    ¬ ((∀ n ∈ wGraph.nodes,
          ((detect untrainedState (Except.error ()) wGraph 0 1).1.confidence_scores.lookup n).isSome ∧
          ((detect untrainedState (Except.error ()) wGraph 0 1).1.ground_truth.lookup n).isSome) ∨
       (wGraph.nodes = [] ∧
        (detect untrainedState (Except.error ()) wGraph 0 1).1.confidence_scores = [] ∧
        (detect untrainedState (Except.error ()) wGraph 0 1).1.ground_truth = [])) := by
  intro h
  rcases h with h | h
  · have h1 := (h "u1" (by decide)).1
    have h2 : (detect untrainedState (Except.error ()) wGraph 0 1).1.confidence_scores = [] := by
      rw [detect_fst, detectResult_degenerate _ _ _ _ _ (Or.inr rfl)]
      rfl
    rw [h2] at h1
    simp [List.lookup] at h1
  · exact absurd h.1 (by decide)

/-- Claim C3 (amended): every node of the evaluated graph appears in the
ground-truth mapping and every node that yielded an embedding appears in
the confidence-score mapping, unless `detect` took an early-return path
(empty graph, untrained detector, exception, or no embeddings at all), in
which case both mappings are empty. -/
theorem detect_key_coverage (st : DetectorState) (env : DetectEnv) (g : Graph)
    (t0 t1 : ℚ) :
    ((detect st env g t0 t1).1.confidence_scores = [] ∧
     (detect st env g t0 t1).1.ground_truth = []) ∨
    (∃ embOf, env = Except.ok embOf ∧
      (∀ n ∈ g.nodes,
        ((detect st env g t0 t1).1.ground_truth.lookup n).isSome) ∧
      (∀ n ∈ g.nodes, (embOf n).isSome →
        ((detect st env g t0 t1).1.confidence_scores.lookup n).isSome)) := by
  rcases detectResult_cases st env g t0 t1 with h | ⟨f, embOf, hf, henv, hne, h⟩
  · left
    constructor <;> (rw [detect_fst, h]; rfl)
  · right
    refine ⟨embOf, henv, ?_, ?_⟩
    · intro n hn
      rw [detect_fst, h]
      show ((groundTruthOf g).lookup n).isSome
      rw [groundTruthOf, lookup_map_pair (gtLabel g) g.nodes n hn]
      rfl
    · intro n hn hemb
      rcases Option.isSome_iff_exists.mp hemb with ⟨e, he⟩
      have hpair : (n, e) ∈ embedPairs embOf g := mem_embedPairs hn he
      rw [detect_fst, h]
      show (((embedPairs embOf g).map (fun pe => (pe.1,
        normalizeScore (minList (batchScores f embOf g))
          (maxList (batchScores f embOf g)) (f.decision pe.2)))).lookup n).isSome
      apply lookup_isSome_of_mem_keys
      rw [List.map_map]
      exact List.mem_map.mpr ⟨(n, e), hpair, rfl⟩

/-- Claim C5 evaluation: the `Node2Vec` constructor is invoked with no
`seed` argument at both the training and the detection call sites, so walk
generation falls back to the library default `seed=None` (the ambient
global random state), whereas the isolation forest does receive the fixed
`random_state=42`. -/
theorem node2vec_call_sites_unseeded (st : DetectorState) :
    (trainNode2VecArgs st).seed = none ∧
    (detectNode2VecArgs st).seed = none ∧
    (trainIsolationForestArgs st).random_state = some 42 :=
  ⟨rfl, rfl, rfl⟩

/-- Claim C6 counterexample: a detector that already holds a fitted forest
and is then trained on the empty sequence keeps its old forest — it is not
left in the untrained state. -/
theorem train_empty_leaves_trained :
    (train trainedState [] (Except.error ())).isolation_forest ≠ none := by
  intro h
  have : (train trainedState [] (Except.error ())).isolation_forest =
      some wForest := rfl
  rw [this] at h
  cases h

/-- Claim C6 (amended): a detector that is untrained before the call stays
untrained when `train` receives an empty sequence, a training graph with no
nodes, or an environment producing no embeddings, and every subsequent
`detect` call returns an empty result rather than failing.  (A previously
trained detector instead keeps its earlier forest on these early-return
paths.) -/
theorem train_degenerate_stays_untrained (st : DetectorState)
    (cgs : List Graph) (env : TrainEnv) (env2 : DetectEnv) (g : Graph)
    (t0 t1 : ℚ) (h0 : st.isolation_forest = none)
    (hdeg : cgs = [] ∨ (trainingGraphOf cgs).nodes = [] ∨
      ∀ embOf fit, env = Except.ok (embOf, fit) →
        embedPairs embOf (trainingGraphOf cgs) = []) :
    (train st cgs env).isolation_forest = none ∧
    (detect (train st cgs env) env2 g t0 t1).1.anomalous_uav_ids = [] ∧
    (detect (train st cgs env) env2 g t0 t1).1.confidence_scores = [] ∧
    (detect (train st cgs env) env2 g t0 t1).1.ground_truth = [] := by
  have huntrained : (train st cgs env).isolation_forest = none := by
    rcases hdeg with h | h | h
    · simp [train, h, h0]
    · by_cases hc : cgs = []
      · simp [train, hc, h0]
      · simp [train, hc, h, h0]
    · by_cases hc : cgs = []
      · simp [train, hc, h0]
      · by_cases hn : (trainingGraphOf cgs).nodes = []
        · simp [train, hc, hn, h0]
        · cases env with
          | error e => simp [train, hc, hn]
          | ok pr =>
            obtain ⟨embOf, fit⟩ := pr
            have hp := h embOf fit rfl
            simp [train, hc, hn, hp, h0]
  refine ⟨huntrained, ?_, ?_, ?_⟩ <;>
    (rw [detect_fst, detectResult_degenerate _ env2 g t0 t1 (Or.inr huntrained)]; rfl)

/-- Witness for C6 (amended): the concrete untrained detector trained on
the empty sequence, then asked to detect on the concrete graph. -/
theorem train_degenerate_stays_untrained_witness :
    untrainedState.isolation_forest = none ∧
    (([] : List Graph) = [] ∨ (trainingGraphOf ([] : List Graph)).nodes = [] ∨
      ∀ embOf fit, (Except.error () : TrainEnv) = Except.ok (embOf, fit) →
        embedPairs embOf (trainingGraphOf ([] : List Graph)) = []) ∧
    ((train untrainedState [] (Except.error ())).isolation_forest = none ∧
     (detect (train untrainedState [] (Except.error ())) (Except.error ()) wGraph 0 1).1.anomalous_uav_ids = [] ∧
     (detect (train untrainedState [] (Except.error ())) (Except.error ()) wGraph 0 1).1.confidence_scores = [] ∧
     (detect (train untrainedState [] (Except.error ())) (Except.error ()) wGraph 0 1).1.ground_truth = []) :=
  ⟨rfl, Or.inl rfl,
    train_degenerate_stays_untrained untrainedState [] (Except.error ())
      (Except.error ()) wGraph 0 1 rfl (Or.inl rfl)⟩

/-- Claim C8: for a non-empty training sequence, the representative graph
is exactly the last graph of the sequence, and on a successful training run
the fitted forest is obtained from the embedding rows of that last graph. -/
theorem train_representative_is_last (st : DetectorState) (cgs : List Graph)
    (embOf : String → Option Emb) (fit : List Emb → Forest) (h : cgs ≠ [])
    (hn : (cgs.getLast h).nodes ≠ [])
    (hp : embedPairs embOf (cgs.getLast h) ≠ []) :
    trainingGraphOf cgs = cgs.getLast h ∧
    (train st cgs (Except.ok (embOf, fit))).isolation_forest =
      some (fit ((embedPairs embOf (cgs.getLast h)).map Prod.snd)) := by
  have hrep : trainingGraphOf cgs = cgs.getLast h := by
    rw [trainingGraphOf, List.getLastD_eq_getLast?, List.getLast?_eq_getLast _ h]
    rfl
  refine ⟨hrep, ?_⟩
  simp [train, h, hrep, hn, hp]

/-- Witness for C8: training on the one-graph sequence containing the
concrete graph, with the concrete embedding oracle and a constant fit. -/
theorem train_representative_is_last_witness :
    ([wGraph] ≠ []) ∧
    (([wGraph].getLast (List.cons_ne_nil wGraph [])).nodes ≠ []) ∧
    (embedPairs wEmbOf ([wGraph].getLast (List.cons_ne_nil wGraph [])) ≠ []) ∧
    (trainingGraphOf [wGraph] = [wGraph].getLast (List.cons_ne_nil wGraph []) ∧
     (train untrainedState [wGraph] (Except.ok (wEmbOf, fun _ => wForest))).isolation_forest =
       some ((fun _ => wForest) ((embedPairs wEmbOf ([wGraph].getLast (List.cons_ne_nil wGraph []))).map Prod.snd))) :=
  ⟨List.cons_ne_nil wGraph [], by decide, by decide,
    train_representative_is_last untrainedState [wGraph] wEmbOf (fun _ => wForest)
      (List.cons_ne_nil wGraph []) (by decide) (by decide)⟩
